import Mathlib

/-!
# VideoConfirm: the upload-and-segment handler of `server.js`

A shallow embedding of the `POST /api/upload` route of `src/server.js` and of the
JavaScript library operations it relies on (`parseInt`, `String.prototype.match`
with `/(\d+)/`, `String.prototype.replace` with a string pattern,
`Array.prototype.sort` with a comparator), followed by theorems about them.

JavaScript strings are modelled as `List Char`, JavaScript numbers by `JSNum`
(the integer-valued binary64 numbers, the infinities and NaN), and the effects of
the handler (responses, file-system calls, the external ffmpeg process, console
output) as a trace `List Effect` computed from the request and from the answers
of the outside world (`World`).
-/

set_option exponentiation.threshold 1100

namespace VideoConfirm

/-! ## JavaScript numbers -/

/-- A JavaScript number, as far as this program can produce one: NaN, an infinity,
or a finite binary64 value that is an integer. The two zeros are not told apart
(`fin 0` stands for both): truthiness, comparison with `0` and the sign of a
difference, the only operations the program applies, agree on them. -/
inductive JSNum where
  | nan : JSNum
  | inf (negative : Bool) : JSNum
  | fin (v : Int) : JSNum
  deriving DecidableEq, Repr

/-- The number of halvings that bring `n` below `2^53`, searched with `fuel` steps. -/
def excessBits : Nat → Nat → Nat
  | 0, _ => 0
  | fuel + 1, n => if n < 2 ^ 53 then 0 else excessBits fuel (n / 2) + 1

/-- Round a natural number to the nearest binary64 value, ties to even
(the conversion written 𝔽 in ECMAScript). `none` stands for +Infinity. -/
def roundToDouble (n : Nat) : Option Nat :=
  if n < 2 ^ 53 then some n
  else
    let e := excessBits n n
    let q := n / 2 ^ e
    let r := n % 2 ^ e
    let half := 2 ^ (e - 1)
    let q1 := if half < r ∨ (r = half ∧ q % 2 = 1) then q + 1 else q
    if q1 * 2 ^ e < 2 ^ 1024 then some (q1 * 2 ^ e) else none

/-- The JavaScript number for a mathematical integer. -/
def JSNum.ofInt (i : Int) : JSNum :=
  match roundToDouble i.natAbs with
  | none => JSNum.inf (decide (i < 0))
  | some m => JSNum.fin (if i < 0 then -(m : Int) else (m : Int))

/-- The JavaScript subtraction `a - b`. -/
def JSNum.sub : JSNum → JSNum → JSNum
  | JSNum.nan, _ => JSNum.nan
  | _, JSNum.nan => JSNum.nan
  | JSNum.inf s, JSNum.inf t => if s = t then JSNum.nan else JSNum.inf s
  | JSNum.inf s, JSNum.fin _ => JSNum.inf s
  | JSNum.fin _, JSNum.inf t => JSNum.inf (!t)
  | JSNum.fin a, JSNum.fin b => JSNum.ofInt (a - b)

/-- The JavaScript test `x > 0`. -/
def JSNum.isPositive : JSNum → Bool
  | JSNum.nan => false
  | JSNum.inf s => !s
  | JSNum.fin v => decide (0 < v)

/-- The JavaScript test `x <= 0`. -/
def JSNum.leZero : JSNum → Bool
  | JSNum.nan => false
  | JSNum.inf s => s
  | JSNum.fin v => decide (v ≤ 0)

/-- The JavaScript truthiness of a number (`ToBoolean`): false for NaN and the zeros. -/
def JSNum.truthy : JSNum → Bool
  | JSNum.nan => false
  | JSNum.inf _ => true
  | JSNum.fin v => decide (v ≠ 0)

/-! ## Strings: digits, `parseInt`, `match(/(\d+)/)`, `replace` -/

/-- The regular-expression class `\d` (without the unicode flag) and the
radix-10 digits of `parseInt`: the ASCII digits. -/
def isDigit (c : Char) : Bool := decide (48 ≤ c.toNat ∧ c.toNat ≤ 57)

/-- The value of a decimal digit. -/
def digitVal (c : Char) : Nat := c.toNat - 48

/-- The mathematical integer a string of decimal digits denotes. -/
def digitsValue (ds : List Char) : Nat :=
  ds.foldl (fun acc c => acc * 10 + digitVal c) 0

/-- The characters `parseInt` skips at the start of its input: ECMAScript
`WhiteSpace` and `LineTerminator`. -/
def isStrWhiteSpace (c : Char) : Bool :=
  let n := c.toNat
  decide (n = 0x09 ∨ n = 0x0A ∨ n = 0x0B ∨ n = 0x0C ∨ n = 0x0D ∨ n = 0x20 ∨ n = 0xA0
    ∨ n = 0x1680 ∨ (0x2000 ≤ n ∧ n ≤ 0x200A) ∨ n = 0x2028 ∨ n = 0x2029 ∨ n = 0x202F
    ∨ n = 0x205F ∨ n = 0x3000 ∨ n = 0xFEFF)

/-- The call `parseInt(s, 10)` of ECMAScript: skip leading white space, read an
optional sign, read the longest run of decimal digits, ignore whatever follows;
NaN when there is no digit. The integer read is rounded to binary64 (for runs of
more than 20 significant digits ECMAScript lets an implementation approximate;
the correctly rounded value, which Node.js returns, is modelled). -/
def parseInt10 (s : List Char) : JSNum :=
  let t := s.dropWhile isStrWhiteSpace
  let negative := decide (t.head? = some '-')
  let u := if t.head? = some '-' ∨ t.head? = some '+' then t.tail else t
  let z := u.takeWhile isDigit
  if z = [] then JSNum.nan
  else JSNum.ofInt (if negative then -(digitsValue z : Int) else (digitsValue z : Int))

/-- The expression `name.match(/(\d+)/)`: `none` for JavaScript `null` (no digit in
the name), else element `[0]` of the match, the first maximal run of digits. -/
def matchDigits (name : List Char) : Option (List Char) :=
  let t := name.dropWhile (fun c => !isDigit c)
  if t = [] then none else some (t.takeWhile isDigit)

/-- The call `s.replace(p, r)` with a one-character string pattern and a
replacement without `$`: the first occurrence only is replaced. -/
def replaceFirst (p r : Char) : List Char → List Char
  | [] => []
  | c :: cs => if c = p then r :: cs else c :: replaceFirst p r cs

/-- Decimal digits of a natural number, most significant first, with `fuel`
division steps. -/
def toDecimalAux : Nat → Nat → List Char → List Char
  | 0, _, acc => acc
  | fuel + 1, n, acc =>
    let acc1 := Char.ofNat (48 + n % 10) :: acc
    if n / 10 = 0 then acc1 else toDecimalAux fuel (n / 10) acc1

/-- The string JavaScript gives a non-negative integer below `10^21` when it is
concatenated or interpolated (`Number::toString`), which is also what `printf`
writes for `%d`: its decimal digits. -/
def toDecimal (n : Nat) : List Char := toDecimalAux (n + 1) n []

/-! ## Paths -/

/-- The call `path.join(dir, name)` for a normalized `dir` and a `name` that is a
single path segment other than `.` and `..`: the two joined by the separator. -/
def pathJoin (dir name : List Char) : List Char := dir ++ '/' :: name

/-- The call `path.basename(p)` (POSIX): trailing separators are dropped, then the
part after the last separator is returned. -/
def basename (p : List Char) : List Char :=
  ((p.reverse.dropWhile (fun c => c = '/')).takeWhile (fun c => c ≠ '/')).reverse

/-! ## The comparator and `Array.prototype.sort` -/

/-- The exceptions the embedded code can throw. -/
inductive JSError where
  | typeError : JSError
  deriving DecidableEq, Repr

/-- The comparator of `files.sort` (lines 66-70):
`parseInt(a.match(/(\d+)/)[0], 10) - parseInt(b.match(/(\d+)/)[0], 10)`.
Reading `[0]` of `null` throws a `TypeError`; `a` is inspected first. -/
def comparator (a b : List Char) : Except JSError JSNum :=
  match matchDigits a with
  | none => Except.error JSError.typeError
  | some runA =>
    let numA := parseInt10 runA
    match matchDigits b with
    | none => Except.error JSError.typeError
    | some runB =>
      let numB := parseInt10 runB
      Except.ok (numA.sub numB)

/-- Insert `a` into an already ordered list: `a` passes every element `b` for which
the comparator answers a positive number and stops at the first for which it
answers something else (negative, zero or NaN, which `sort` reads as zero). An
exception of the comparator aborts the insertion. -/
def insertOrdered {α ε : Type} (cmp : α → α → Except ε JSNum) (a : α) :
    List α → Except ε (List α)
  | [] => Except.ok [a]
  | b :: l =>
    match cmp a b with
    | Except.error e => Except.error e
    | Except.ok v =>
      if v.isPositive then
        match insertOrdered cmp a l with
        | Except.error e => Except.error e
        | Except.ok r => Except.ok (b :: r)
      else Except.ok (a :: b :: l)

/-- The call `array.sort(cmp)`: a stable sort that asks the comparator (ECMAScript
requires stability since ES2019; the sequence of comparator calls is left to the
implementation, and a stable insertion sort is taken here). An array of fewer
than two elements is returned without any call of the comparator; an exception
thrown by the comparator leaves `sort` as that exception. -/
def arraySort {α ε : Type} (cmp : α → α → Except ε JSNum) : List α → Except ε (List α)
  | [] => Except.ok []
  | a :: l =>
    match arraySort cmp l with
    | Except.error e => Except.error e
    | Except.ok s => insertOrdered cmp a s

/-- The statement `files.sort((a, b) => ...)` of the readdir callback. -/
def sortFiles (files : List (List Char)) : Except JSError (List (List Char)) :=
  arraySort comparator files

/-- The constant `PORT`. -/
def PORT : Nat := 5001

/-- One element of `chunkUrls` (lines 72-74): the template literal with `PORT`,
the base name of the output directory and the file name interpolated. -/
def chunkUrl (outputDir file : List Char) : List Char :=
  "http://localhost:".toList ++ toDecimal PORT ++ "/chunks/".toList ++ basename outputDir
    ++ '/' :: file

/-! ## Requests, the outside world, effects -/

/-- The object `req.file` that multer leaves for the stored upload. -/
structure UploadedFile where
  path : List Char
  filename : List Char
  deriving DecidableEq, Repr

/-- What the handler reads of a request: `req.file` (absent when no file came under
the field `video`) and the text field `req.body.chunkDuration` (absent when the
form has no such field). -/
structure Request where
  file : Option UploadedFile
  chunkDuration : Option (List Char)
  deriving DecidableEq, Repr

/-- How the external ffmpeg process ends: it emits `end`, it emits `error` with an
`Error` carrying a message, or it emits nothing. -/
inductive SegmentOutcome where
  | ended : SegmentOutcome
  | failed (message : List Char) : SegmentOutcome
  | pending : SegmentOutcome
  deriving DecidableEq, Repr

/-- An error value of a file-system call, by its description. -/
abbrev SysError := List Char

/-- The answers of the outside world during one request. -/
structure World where
  chunksDir : List Char
  outputDirExists : Bool
  mkdirError : Option SysError
  segmentation : SegmentOutcome
  listing : Except SysError (List (List Char))
  unlinkError : Option SysError

/-- The JSON bodies the route can send, and the error page of the framework. -/
inductive Payload where
  | error (message : String) : Payload
  | success (message : String) (chunkUrls : List (List Char)) : Payload
  | frameworkError : Payload
  deriving DecidableEq, Repr

/-- The observable actions of the handler, in the order they happen. -/
inductive Effect where
  | respond (status : Nat) (body : Payload) : Effect
  | existsSync (path : List Char) : Effect
  | mkdirSync (path : List Char) : Effect
  | runFfmpeg (input : List Char) (segmentTime : JSNum) (output : List Char) : Effect
  | consoleLog (line : String) : Effect
  | consoleError (line : String) (detail : List Char) : Effect
  | readdir (path : List Char) : Effect
  | unlink (path : List Char) : Effect
  | uncaughtException (e : JSError) : Effect
  deriving DecidableEq, Repr

/-! ## The route `POST /api/upload` -/

/-- The string `parseInt` works on for `req.body.chunkDuration`: the field, or
`"undefined"` (`ToString(undefined)`) when it is absent. -/
def fieldText : Option (List Char) → List Char
  | none => "undefined".toList
  | some s => s

/-- Line 44: `parseInt(req.body.chunkDuration, 10)`. -/
def chunkDurationOf (req : Request) : JSNum := parseInt10 (fieldText req.chunkDuration)

/-- The condition of line 45: `!chunkDuration || chunkDuration <= 0`. -/
def durationRejected (d : JSNum) : Bool := !d.truthy || d.leZero

/-- Line 50, the directory name: `req.file.filename.replace('.', '_')`. -/
def outputDirName (filename : List Char) : List Char := replaceFirst '.' '_' filename

/-- Line 50: `path.join(chunksDir, req.file.filename.replace('.', '_'))`. -/
def outputDirOf (w : World) (file : UploadedFile) : List Char :=
  pathJoin w.chunksDir (outputDirName file.filename)

/-- The callback of `fs.unlink` (lines 83-85). -/
def unlinkCallback (w : World) : List Effect :=
  match w.unlinkError with
  | some err => [Effect.consoleError "Error deleting original upload:" err]
  | none => []

/-- The callback of `fs.readdir` (lines 59-86). An exception of the comparator is
not caught anywhere: it leaves the callback as an uncaught exception and the
statements after `files.sort` are not reached. -/
def readdirCallback (w : World) (videoPath outputDir : List Char) : List Effect :=
  match w.listing with
  | Except.error err =>
    [Effect.consoleError "Could not list the directory." err,
     Effect.respond 500 (Payload.error "Failed to list video chunks.")]
  | Except.ok files =>
    match sortFiles files with
    | Except.error e => [Effect.uncaughtException e]
    | Except.ok sorted =>
      let chunkUrls := sorted.map (chunkUrl outputDir)
      [Effect.respond 200 (Payload.success "Video chunked successfully!" chunkUrls),
       Effect.unlink videoPath] ++ unlinkCallback w

/-- The handler of the event `end` (lines 56-87). -/
def onEnd (w : World) (videoPath outputDir : List Char) : List Effect :=
  Effect.consoleLog "Video has been chunked successfully."
    :: Effect.readdir outputDir :: readdirCallback w videoPath outputDir

/-- The handler of the event `error` (lines 88-91). -/
def onError (message : List Char) : List Effect :=
  [Effect.consoleError "Error during chunking:" message,
   Effect.respond 500 (Payload.error "Failed to chunk video.")]

/-- Lines 55-99: the ffmpeg command is configured (stream copy, segment muxer,
`-segment_time` the duration, `-reset_timestamps 1`, output template
`chunk-%03d.mp4` in the output directory) and run; then one of its events, if
any, reaches its handler. -/
def runSegmentation (w : World) (videoPath outputDir : List Char) (duration : JSNum) :
    List Effect :=
  Effect.runFfmpeg videoPath duration (pathJoin outputDir "chunk-%03d.mp4".toList)
    :: match w.segmentation with
       | SegmentOutcome.ended => onEnd w videoPath outputDir
       | SegmentOutcome.failed message => onError message
       | SegmentOutcome.pending => []

/-- The route handler of `POST /api/upload` (lines 39-100), as the trace of its
effects. An exception of `fs.mkdirSync` leaves the handler synchronously and the
framework answers with its own 500 page. -/
def uploadHandler (w : World) (req : Request) : List Effect :=
  match req.file with
  | none => [Effect.respond 400 (Payload.error "No video file uploaded.")]
  | some file =>
    let chunkDuration := chunkDurationOf req
    if durationRejected chunkDuration then
      [Effect.respond 400 (Payload.error "Invalid chunk duration.")]
    else
      let videoPath := file.path
      let outputDir := outputDirOf w file
      if w.outputDirExists then
        Effect.existsSync outputDir :: runSegmentation w videoPath outputDir chunkDuration
      else
        match w.mkdirError with
        | some _ =>
          [Effect.existsSync outputDir, Effect.mkdirSync outputDir,
           Effect.respond 500 Payload.frameworkError]
        | none =>
          Effect.existsSync outputDir :: Effect.mkdirSync outputDir
            :: runSegmentation w videoPath outputDir chunkDuration

/-! ## Names produced outside the handler -/

/-- The file name multer stores an upload under (lines 31-34):
`Date.now() + '-' + Math.round(Math.random() * 1E9) + path.extname(originalname)`,
for the time `now`, the rounded random number `rnd` and the extension `ext`. -/
def generatedFilename (now rnd : Nat) (ext : List Char) : List Char :=
  toDecimal now ++ '-' :: (toDecimal rnd ++ ext)

/-- Pad a digit string with zeros on the left to `width` characters (`printf`
flag `0` with a width). -/
def padZeros (width : Nat) (ds : List Char) : List Char :=
  List.replicate (width - ds.length) '0' ++ ds

/-- The file name the segment muxer writes for sequence index `i` under the
output template `chunk-%03d.mp4` of line 98. -/
def chunkName (i : Nat) : List Char :=
  "chunk-".toList ++ padZeros 3 (toDecimal i) ++ ".mp4".toList

/-- The files of a job that produced `n` segments, by ascending sequence index. -/
def chunkNames (n : Nat) : List (List Char) := (List.range n).map chunkName

/-- The responses in a trace, in order. -/
def responses : List Effect → List (Nat × Payload)
  | [] => []
  | Effect.respond status body :: rest => (status, body) :: responses rest
  | _ :: rest => responses rest

/-- The paths a trace asks to unlink, in order. -/
def unlinks : List Effect → List (List Char)
  | [] => []
  | Effect.unlink p :: rest => p :: unlinks rest
  | _ :: rest => unlinks rest


/-! ## Notions used to state the properties, and sample inputs -/

deriving instance DecidableEq for Except

/-- The integer value of the first run of digits of a file name (`0` when the name
has no digit): the sequence index the name carries. -/
def seqIndex (name : List Char) : Nat :=
  match matchDigits name with
  | some run => digitsValue run
  | none => 0

/-- The effects of lines 50-53: the test for the output directory and, when it does
not exist, its creation. -/
def setupEffects (w : World) (outputDir : List Char) : List Effect :=
  if w.outputDirExists then [Effect.existsSync outputDir]
  else [Effect.existsSync outputDir, Effect.mkdirSync outputDir]

/-- Whether an effect is a call of `fs.readdir`. -/
def isReaddir : Effect → Bool
  | Effect.readdir _ => true
  | _ => false

/-- A request, an uploaded file and worlds to evaluate the handler on. -/
def sampleFile : UploadedFile :=
  { path := "uploads/1700000000000-123456789.mp4".toList,
    filename := "1700000000000-123456789.mp4".toList }

/-- A well-formed request: a file and the duration `10`. -/
def sampleRequest : Request := { file := some sampleFile, chunkDuration := some "10".toList }

/-- A world in which the output directory is created, with the given outcome of
the segmentation, of the directory read and of the deletion. -/
def sampleWorld (seg : SegmentOutcome) (listing : Except SysError (List (List Char)))
    (unlinkError : Option SysError) : World :=
  { chunksDir := "/srv/chunks".toList, outputDirExists := false, mkdirError := none,
    segmentation := seg, listing := listing, unlinkError := unlinkError }

/-- A listing in the order of the specification's example, with two names whose
index exceeds the padding width. -/
def exampleListing : List (List Char) :=
  ["chunk-010.mp4".toList, "chunk-002.mp4".toList, "chunk-001.mp4".toList,
   "chunk-1000.mp4".toList, "chunk-999.mp4".toList]

/-- Two names whose indices, `2^53 + 1` and `2^53`, are the same binary64 number. -/
def hugeListing : List (List Char) :=
  ["chunk-9007199254740993.mp4".toList, "chunk-9007199254740992.mp4".toList]

/-- A listing of one name without a digit. -/
def digitlessListing : List (List Char) := ["README".toList]

/-- A second request, with another stored file and another duration. -/
def otherRequest : Request :=
  { file := some { path := "uploads/1700000000001-42.mov".toList,
                   filename := "1700000000001-42.mov".toList },
    chunkDuration := some "30".toList }

/-- The shape of `path.extname(name)`: empty, or one `.` followed by characters
none of which is `.`. -/
def IsExtension (ext : List Char) : Prop :=
  ext = [] ∨ ∃ rest, ext = '.' :: rest ∧ '.' ∉ rest

/-- The input of `parseInt` read as white space, an optional `+`, a non-empty run
of digits that is not followed by a digit, and a rest. -/
def LeadingInteger (s ws sign ds rest : List Char) : Prop :=
  s = ws ++ sign ++ ds ++ rest ∧ (∀ c ∈ ws, isStrWhiteSpace c = true) ∧
    (sign = [] ∨ sign = ['+']) ∧ ds ≠ [] ∧ (∀ c ∈ ds, isDigit c = true) ∧
    ∀ c, rest.head? = some c → isDigit c = false

/-- A request whose duration field starts with an integer and goes on with letters. -/
def trailingGarbageRequest : Request :=
  { file := some sampleFile, chunkDuration := some "10abc".toList }

/-! ## Numbers and digit strings -/

theorem roundToDouble_small {n : Nat} (h : n < 2 ^ 53) : roundToDouble n = some n := by
  unfold roundToDouble
  rw [if_pos h]

theorem isDigit_iff (c : Char) : isDigit c = true ↔ 48 ≤ c.toNat ∧ c.toNat ≤ 57 := by
  simp [isDigit]

theorem not_space_of_isDigit {c : Char} (h : isDigit c = true) : isStrWhiteSpace c = false := by
  rw [isDigit_iff] at h
  simp only [isStrWhiteSpace, decide_eq_false_iff_not]
  omega

theorem takeWhile_all {α : Type} (p : α → Bool) :
    ∀ l : List α, (∀ a ∈ l, p a = true) → l.takeWhile p = l
  | [], _ => rfl
  | a :: l, h => by
    rw [List.takeWhile_cons_of_pos (h a (List.mem_cons_self a l)),
      takeWhile_all p l (fun b hb => h b (List.mem_cons_of_mem a hb))]

theorem all_takeWhile {α : Type} (p : α → Bool) :
    ∀ l : List α, ∀ a ∈ l.takeWhile p, p a = true
  | [], a, h => by simp at h
  | b :: l, a, h => by
    by_cases hb : p b = true
    · rw [List.takeWhile_cons_of_pos hb] at h
      rcases List.mem_cons.mp h with rfl | h1
      · exact hb
      · exact all_takeWhile p l a h1
    · rw [List.takeWhile_cons_of_neg hb] at h
      simp at h

/-- On a non-empty string of digits `parseInt` reads the whole string. -/
theorem parseInt10_digits {ds : List Char} (hne : ds ≠ [])
    (hd : ∀ c ∈ ds, isDigit c = true) : parseInt10 ds = JSNum.ofInt (digitsValue ds) := by
  cases ds with
  | nil => exact absurd rfl hne
  | cons c cs =>
    have hc : isDigit c = true := hd c (List.mem_cons_self c cs)
    have hsp : ¬ (isStrWhiteSpace c = true) := by simp [not_space_of_isDigit hc]
    have hminus : c ≠ '-' := by
      rintro rfl
      exact absurd hc (by decide)
    have hplus : c ≠ '+' := by
      rintro rfl
      exact absurd hc (by decide)
    unfold parseInt10
    simp only [List.dropWhile_cons_of_neg hsp, List.head?_cons, Option.some.injEq, hminus,
      hplus, or_self, if_false, decide_False, takeWhile_all isDigit (c :: cs) hd]
    simp

/-- What `match(/(\d+)/)` returns is a non-empty string of digits. -/
theorem matchDigits_run {name run : List Char} (h : matchDigits name = some run) :
    run ≠ [] ∧ ∀ c ∈ run, isDigit c = true := by
  unfold matchDigits at h
  simp only at h
  split at h
  · exact absurd h (by simp)
  · rename_i hne
    have hrun : run = (name.dropWhile (fun c => !isDigit c)).takeWhile isDigit := by
      simpa using h.symm
    have hhead := List.head_dropWhile_not (fun c => !isDigit c) name hne
    simp only [Bool.not_eq_false_eq_eq_true, Bool.not_eq_false'] at hhead
    refine ⟨?_, ?_⟩
    · rw [hrun]
      cases hdw : name.dropWhile (fun c => !isDigit c) with
      | nil => exact absurd hdw hne
      | cons x xs =>
        simp only [hdw, List.head_cons] at hhead
        rw [List.takeWhile_cons_of_pos hhead]
        exact List.cons_ne_nil _ _
    · rw [hrun]
      exact all_takeWhile isDigit _

theorem matchDigits_eq_none_iff (name : List Char) :
    matchDigits name = none ↔ ∀ c ∈ name, isDigit c = false := by
  unfold matchDigits
  simp only
  constructor
  · intro h
    split at h
    · rename_i hnil
      intro c hc
      have := List.dropWhile_eq_nil_iff.mp hnil c hc
      simpa using this
    · exact absurd h (by simp)
  · intro h
    have : name.dropWhile (fun c => !isDigit c) = [] := by
      apply List.dropWhile_eq_nil_iff.mpr
      intro c hc
      simp [h c hc]
    simp [this]

theorem matchDigits_of_digit {name : List Char} (h : ∃ c ∈ name, isDigit c = true) :
    ∃ run, matchDigits name = some run := by
  cases hm : matchDigits name with
  | some run => exact ⟨run, rfl⟩
  | none =>
    obtain ⟨c, hc, hd⟩ := h
    have := (matchDigits_eq_none_iff name).mp hm c hc
    rw [hd] at this
    exact absurd this (by simp)

/-! ## The sort -/

theorem roundToDouble_exact {n : Nat} (h : n ≤ 2 ^ 53) : roundToDouble n = some n := by
  rcases Nat.lt_or_ge n (2 ^ 53) with h1 | h1
  · exact roundToDouble_small h1
  · have : n = 2 ^ 53 := Nat.le_antisymm h h1
    subst this
    decide

theorem ofInt_exact {i : Int} (h : i.natAbs ≤ 2 ^ 53) : JSNum.ofInt i = JSNum.fin i := by
  unfold JSNum.ofInt
  rw [roundToDouble_exact h]
  by_cases hi : i < 0
  · simp only [hi, if_true]
    congr 1
    omega
  · simp only [hi, if_false]
    congr 1
    omega

theorem insertOrdered_perm {α ε : Type} (cmp : α → α → Except ε JSNum) (a : α) :
    ∀ (l r : List α), insertOrdered cmp a l = Except.ok r → r.Perm (a :: l)
  | [], r, h => by
    simp only [insertOrdered, Except.ok.injEq] at h
    subst h
    exact List.Perm.refl _
  | b :: l, r, h => by
    unfold insertOrdered at h
    cases hc : cmp a b with
    | error e => simp [hc] at h
    | ok v =>
      simp only [hc] at h
      by_cases hv : v.isPositive = true
      · rw [if_pos hv] at h
        cases hi : insertOrdered cmp a l with
        | error e => simp [hi] at h
        | ok r1 =>
          simp only [hi, Except.ok.injEq] at h
          subst h
          exact ((insertOrdered_perm cmp a l r1 hi).cons b).trans (List.Perm.swap a b l)
      · rw [if_neg hv] at h
        simp only [Except.ok.injEq] at h
        subst h
        exact List.Perm.refl _

theorem arraySort_perm {α ε : Type} (cmp : α → α → Except ε JSNum) :
    ∀ (l s : List α), arraySort cmp l = Except.ok s → s.Perm l
  | [], s, h => by
    simp only [arraySort, Except.ok.injEq] at h
    subst h
    exact List.Perm.refl _
  | a :: l, s, h => by
    unfold arraySort at h
    cases hs : arraySort cmp l with
    | error e => simp [hs] at h
    | ok s1 =>
      simp only [hs] at h
      exact (insertOrdered_perm cmp a s1 s h).trans ((arraySort_perm cmp l s1 hs).cons a)

/-- Inserting into a list ordered by `key`, with a comparator whose sign follows
`key`, succeeds and keeps the list ordered. -/
theorem insertOrdered_keyed {α ε : Type} (cmp : α → α → Except ε JSNum) (key : α → Nat)
    (a : α) :
    ∀ l : List α,
      (∀ b ∈ l, ∃ v, cmp a b = Except.ok v ∧ (v.isPositive = true ↔ key b < key a)) →
      l.Pairwise (fun x y => key x ≤ key y) →
      ∃ r, insertOrdered cmp a l = Except.ok r ∧ r.Pairwise (fun x y => key x ≤ key y)
  | [], _, _ => ⟨[a], rfl, List.pairwise_singleton _ _⟩
  | b :: l, hcmp, hsorted => by
    obtain ⟨v, hv, hsign⟩ := hcmp b (List.mem_cons_self b l)
    have hbl := List.pairwise_cons.mp hsorted
    unfold insertOrdered
    simp only [hv]
    by_cases hp : v.isPositive = true
    · obtain ⟨r1, hr1, hs1⟩ := insertOrdered_keyed cmp key a l
        (fun x hx => hcmp x (List.mem_cons_of_mem b hx)) hbl.2
      refine ⟨b :: r1, by simp [hp, hr1], ?_⟩
      refine List.pairwise_cons.mpr ⟨?_, hs1⟩
      intro y hy
      have hy1 : y ∈ a :: l := (insertOrdered_perm cmp a l r1 hr1).subset hy
      rcases List.mem_cons.mp hy1 with rfl | hyl
      · exact Nat.le_of_lt (hsign.mp hp)
      · exact hbl.1 y hyl
    · refine ⟨a :: b :: l, by simp [hp], ?_⟩
      have hab : key a ≤ key b := Nat.le_of_not_lt (fun hlt => hp (hsign.mpr hlt))
      refine List.pairwise_cons.mpr ⟨?_, hsorted⟩
      intro y hy
      rcases List.mem_cons.mp hy with rfl | hyl
      · exact hab
      · exact Nat.le_trans hab (hbl.1 y hyl)

/-- Sorting with a comparator whose sign follows `key` succeeds and returns the
elements ordered by `key`. -/
theorem arraySort_keyed {α ε : Type} (cmp : α → α → Except ε JSNum) (key : α → Nat) :
    ∀ l : List α,
      (∀ a ∈ l, ∀ b ∈ l, ∃ v, cmp a b = Except.ok v ∧ (v.isPositive = true ↔ key b < key a)) →
      ∃ s, arraySort cmp l = Except.ok s ∧ s.Perm l ∧ s.Pairwise (fun x y => key x ≤ key y)
  | [], _ => ⟨[], rfl, List.Perm.refl _, List.Pairwise.nil⟩
  | a :: l, hcmp => by
    obtain ⟨s1, hs1, hp1, hsorted1⟩ := arraySort_keyed cmp key l
      (fun x hx y hy => hcmp x (List.mem_cons_of_mem a hx) y (List.mem_cons_of_mem a hy))
    obtain ⟨r, hr, hsorted⟩ := insertOrdered_keyed cmp key a s1
      (fun b hb => hcmp a (List.mem_cons_self a l) b (List.mem_cons_of_mem a (hp1.subset hb)))
      hsorted1
    have h : arraySort cmp (a :: l) = Except.ok r := by
      unfold arraySort
      simp [hs1, hr]
    exact ⟨r, h, arraySort_perm cmp (a :: l) r h, hsorted⟩

/-- On two names with a digit whose sequence indices are at most `2^53` the
comparator returns a number whose sign is that of the difference of the indices. -/
theorem comparator_keyed {a b : List Char} (ha : ∃ c ∈ a, isDigit c = true)
    (hb : ∃ c ∈ b, isDigit c = true) (hia : seqIndex a ≤ 2 ^ 53) (hib : seqIndex b ≤ 2 ^ 53) :
    ∃ v, comparator a b = Except.ok v ∧ (v.isPositive = true ↔ seqIndex b < seqIndex a) := by
  obtain ⟨ra, hra⟩ := matchDigits_of_digit ha
  obtain ⟨rb, hrb⟩ := matchDigits_of_digit hb
  have hda := matchDigits_run hra
  have hdb := matchDigits_run hrb
  simp only [seqIndex, hra, hrb] at hia hib ⊢
  have hpa : parseInt10 ra = JSNum.fin (digitsValue ra) := by
    rw [parseInt10_digits hda.1 hda.2]
    exact ofInt_exact (by simpa using hia)
  have hpb : parseInt10 rb = JSNum.fin (digitsValue rb) := by
    rw [parseInt10_digits hdb.1 hdb.2]
    exact ofInt_exact (by simpa using hib)
  refine ⟨JSNum.fin ((digitsValue ra : Int) - (digitsValue rb : Int)), ?_, ?_⟩
  · unfold comparator
    simp only [hra, hrb, hpa, hpb, JSNum.sub]
    congr 1
    exact ofInt_exact (by omega)
  · simp only [JSNum.isPositive, decide_eq_true_eq]
    omega

/-! ## Decimal strings and the segment names -/

theorem digitChar_spec {k : Nat} (hk : k < 10) :
    isDigit (Char.ofNat (48 + k)) = true ∧ digitVal (Char.ofNat (48 + k)) = k := by
  interval_cases k <;> exact ⟨by decide, by decide⟩

theorem digitsValue_snoc (ds : List Char) (c : Char) :
    digitsValue (ds ++ [c]) = digitsValue ds * 10 + digitVal c := by
  simp [digitsValue, List.foldl_append]

/-- The digits `toDecimalAux` puts in front of its accumulator, given enough fuel,
are a non-empty string of digits whose value is the number. -/
theorem toDecimalAux_spec :
    ∀ (fuel n : Nat) (acc : List Char), n < fuel →
      ∃ ds, toDecimalAux fuel n acc = ds ++ acc ∧ ds ≠ [] ∧
        (∀ c ∈ ds, isDigit c = true) ∧ digitsValue ds = n
  | 0, _, _, h => absurd h (Nat.not_lt_zero _)
  | fuel + 1, n, acc, h => by
    have hd := digitChar_spec (Nat.mod_lt n (by decide : 10 > 0))
    unfold toDecimalAux
    by_cases h0 : n / 10 = 0
    · refine ⟨[Char.ofNat (48 + n % 10)], by simp [h0], by simp, ?_, ?_⟩
      · intro c hc
        rw [List.mem_singleton.mp hc]
        exact hd.1
      · have : digitsValue [Char.ofNat (48 + n % 10)] = digitVal (Char.ofNat (48 + n % 10)) := by
          simp [digitsValue]
        rw [this, hd.2]
        omega
    · obtain ⟨ds, hds, _, hall, hval⟩ :=
        toDecimalAux_spec fuel (n / 10) (Char.ofNat (48 + n % 10) :: acc) (by omega)
      refine ⟨ds ++ [Char.ofNat (48 + n % 10)], by simp [h0, hds], by simp, ?_, ?_⟩
      · intro c hc
        rcases List.mem_append.mp hc with h1 | h1
        · exact hall c h1
        · rw [List.mem_singleton.mp h1]
          exact hd.1
      · rw [digitsValue_snoc, hval, hd.2]
        omega

theorem toDecimal_spec (n : Nat) :
    toDecimal n ≠ [] ∧ (∀ c ∈ toDecimal n, isDigit c = true) ∧ digitsValue (toDecimal n) = n := by
  obtain ⟨ds, hds, hne, hall, hval⟩ := toDecimalAux_spec (n + 1) n [] (Nat.lt_succ_self n)
  have : toDecimal n = ds := by simpa [toDecimal] using hds
  rw [this]
  exact ⟨hne, hall, hval⟩

theorem digitsValue_zeros (k : Nat) (ds : List Char) :
    digitsValue (List.replicate k '0' ++ ds) = digitsValue ds := by
  induction k with
  | zero => simp
  | succ k ih =>
    have h0 : digitVal '0' = 0 := by decide
    simp only [digitsValue, List.replicate_succ, List.cons_append, List.foldl_cons, h0] at ih ⊢
    simpa using ih

theorem padZeros_spec (width : Nat) {ds : List Char} (hne : ds ≠ [])
    (hall : ∀ c ∈ ds, isDigit c = true) :
    padZeros width ds ≠ [] ∧ (∀ c ∈ padZeros width ds, isDigit c = true) ∧
      digitsValue (padZeros width ds) = digitsValue ds := by
  refine ⟨by simp [padZeros, hne], ?_, digitsValue_zeros _ ds⟩
  intro c hc
  rcases List.mem_append.mp hc with h1 | h1
  · rw [(List.mem_replicate.mp h1).2]
    decide
  · exact hall c h1

/-- In a name `chunk-<digits>.mp4` the first run of digits is `<digits>`. -/
theorem matchDigits_chunk {ds : List Char} (hne : ds ≠ []) (hall : ∀ c ∈ ds, isDigit c = true) :
    matchDigits ("chunk-".toList ++ ds ++ ".mp4".toList) = some ds := by
  cases ds with
  | nil => exact absurd rfl hne
  | cons d ds =>
    have hd : isDigit d = true := hall d (List.mem_cons_self d ds)
    have hdrop : ("chunk-".toList ++ (d :: ds) ++ ".mp4".toList).dropWhile (fun c => !isDigit c)
        = (d :: ds) ++ ".mp4".toList := by
      have h1 : ∀ c ∈ "chunk-".toList, (fun c => !isDigit c) c = true := by decide
      rw [List.append_assoc, List.dropWhile_append_of_pos h1]
      exact List.dropWhile_cons_of_neg (by simp [hd])
    have htake : ((d :: ds) ++ ".mp4".toList).takeWhile isDigit = d :: ds := by
      rw [List.takeWhile_append_of_pos hall]
      have : (".mp4".toList).takeWhile isDigit = [] := by decide
      rw [this, List.append_nil]
    unfold matchDigits
    simp only [hdrop, htake]
    simp

theorem seqIndex_chunkName (i : Nat) : seqIndex (chunkName i) = i := by
  obtain ⟨hne, hall, hval⟩ := toDecimal_spec i
  obtain ⟨pne, pall, pval⟩ := padZeros_spec 3 hne hall
  unfold seqIndex chunkName
  rw [matchDigits_chunk pne pall]
  simp only [pval, hval]

theorem chunkName_has_digit (i : Nat) : ∃ c ∈ chunkName i, isDigit c = true := by
  obtain ⟨hne, hall, _⟩ := toDecimal_spec i
  obtain ⟨pne, pall, _⟩ := padZeros_spec 3 hne hall
  cases hp : padZeros 3 (toDecimal i) with
  | nil => exact absurd hp pne
  | cons d ds =>
    refine ⟨d, ?_, pall d (by simp [hp])⟩
    simp [chunkName, hp]

theorem mem_chunkNames {n : Nat} {f : List Char} (h : f ∈ chunkNames n) :
    ∃ i, i < n ∧ f = chunkName i := by
  obtain ⟨i, hi, rfl⟩ := List.mem_map.mp h
  exact ⟨i, List.mem_range.mp hi, rfl⟩

theorem chunkNames_sorted (n : Nat) :
    (chunkNames n).Pairwise (fun a b => seqIndex a ≤ seqIndex b) := by
  unfold chunkNames
  rw [List.pairwise_map]
  refine (List.pairwise_lt_range n).imp ?_
  intro a b hab
  rw [seqIndex_chunkName, seqIndex_chunkName]
  exact Nat.le_of_lt hab

/-- Whatever the order in which the segment files of indices `0..n-1` are listed,
the sort returns them by ascending index. -/
theorem sortFiles_chunkNames {n : Nat} {files : List (List Char)}
    (hperm : files.Perm (chunkNames n)) (hn : n ≤ 2 ^ 53) :
    sortFiles files = Except.ok (chunkNames n) := by
  have hmem : ∀ f ∈ files, (∃ c ∈ f, isDigit c = true) ∧ seqIndex f ≤ 2 ^ 53 := by
    intro f hf
    obtain ⟨i, hi, rfl⟩ := mem_chunkNames (hperm.subset hf)
    refine ⟨chunkName_has_digit i, ?_⟩
    rw [seqIndex_chunkName]
    omega
  obtain ⟨s, hs, hsp, hsorted⟩ := arraySort_keyed comparator seqIndex files
    (fun a ha b hb => comparator_keyed (hmem a ha).1 (hmem b hb).1 (hmem a ha).2 (hmem b hb).2)
  have heq : s = chunkNames n := by
    refine List.Perm.eq_of_sorted ?_ hsorted (chunkNames_sorted n) (hsp.trans hperm)
    intro a b ha hb hab hba
    obtain ⟨i, _, rfl⟩ := mem_chunkNames ((hsp.trans hperm).subset ha)
    obtain ⟨j, _, rfl⟩ := mem_chunkNames hb
    rw [seqIndex_chunkName, seqIndex_chunkName] at hab hba
    rw [Nat.le_antisymm hab hba]
  rw [← heq]
  exact hs

/-! ## The handler: its trace on an accepted request -/

theorem responses_append (l1 l2 : List Effect) :
    responses (l1 ++ l2) = responses l1 ++ responses l2 := by
  induction l1 with
  | nil => rfl
  | cons e l ih => cases e <;> simp [responses, ih]

theorem unlinks_append (l1 l2 : List Effect) :
    unlinks (l1 ++ l2) = unlinks l1 ++ unlinks l2 := by
  induction l1 with
  | nil => rfl
  | cons e l ih => cases e <;> simp [unlinks, ih]

theorem setupEffects_quiet (w : World) (dir : List Char) :
    responses (setupEffects w dir) = [] ∧ unlinks (setupEffects w dir) = [] ∧
      ∀ e ∈ setupEffects w dir, isReaddir e = false := by
  unfold setupEffects
  cases w.outputDirExists <;> simp [responses, unlinks, isReaddir]

theorem unlinkCallback_quiet (w : World) :
    responses (unlinkCallback w) = [] ∧ unlinks (unlinkCallback w) = [] ∧
      ∀ e ∈ unlinkCallback w, isReaddir e = false := by
  unfold unlinkCallback
  cases w.unlinkError <;> simp [responses, unlinks, isReaddir]

/-- On a request with a file and an accepted duration, in a world where the output
directory exists or can be created, the handler sets up the directory and runs
the segmentation. -/
theorem uploadHandler_accepted {w : World} {req : Request} {file : UploadedFile}
    (hfile : req.file = some file) (hdur : durationRejected (chunkDurationOf req) = false)
    (hdir : w.outputDirExists = true ∨ w.mkdirError = none) :
    uploadHandler w req = setupEffects w (outputDirOf w file)
      ++ runSegmentation w file.path (outputDirOf w file) (chunkDurationOf req) := by
  unfold uploadHandler setupEffects
  simp only [hfile, hdur, Bool.false_eq_true, if_false]
  by_cases he : w.outputDirExists = true
  · simp [he]
  · have hm : w.mkdirError = none := hdir.resolve_left he
    simp [he, hm]

/-! ## The orderer (C1, C2, C5) -/

/-- C1 as stated fails: every name of `hugeListing` contains a digit, the comparator
finds the two parsed numbers equal (`parseInt` rounds `9007199254740993` to
`9007199254740992`), so the sort leaves the listing as it is, and in it the integer
values of the first digit runs decrease. -/
theorem orderer_counterexample :
    (∀ f ∈ hugeListing, ∃ c ∈ f, isDigit c = true) ∧
      sortFiles hugeListing = Except.ok hugeListing ∧
      ¬ hugeListing.Pairwise (fun a b => seqIndex a ≤ seqIndex b) := by
  decide

/-- C1 (amended): for every list of file names in which each name contains a decimal
digit and the integer value of each name's first run of digits is at most `2^53`,
the orderer returns a permutation of the input along which that integer value is
non-decreasing; the comparison is numeric, so `chunk-010, chunk-002, chunk-001`
becomes `chunk-001, chunk-002, chunk-010` and `chunk-1000` comes after `chunk-999`. -/
theorem orderer_sorts_by_sequence_index (files : List (List Char))
    (hdigit : ∀ f ∈ files, ∃ c ∈ f, isDigit c = true)
    (hsmall : ∀ f ∈ files, seqIndex f ≤ 2 ^ 53) :
    (∃ sorted, sortFiles files = Except.ok sorted ∧ sorted.Perm files ∧
        sorted.Pairwise (fun a b => seqIndex a ≤ seqIndex b)) ∧
      sortFiles ["chunk-010.mp4".toList, "chunk-002.mp4".toList, "chunk-001.mp4".toList]
        = Except.ok ["chunk-001.mp4".toList, "chunk-002.mp4".toList, "chunk-010.mp4".toList] ∧
      sortFiles ["chunk-1000.mp4".toList, "chunk-999.mp4".toList]
        = Except.ok ["chunk-999.mp4".toList, "chunk-1000.mp4".toList] := by
  refine ⟨?_, by decide, by decide⟩
  exact arraySort_keyed comparator seqIndex files
    (fun a ha b hb => comparator_keyed (hdigit a ha) (hdigit b hb) (hsmall a ha) (hsmall b hb))

/-- The amended C1 at `exampleListing`. -/
theorem orderer_sorts_by_sequence_index_witness :
    (∀ f ∈ exampleListing, ∃ c ∈ f, isDigit c = true) ∧
      (∀ f ∈ exampleListing, seqIndex f ≤ 2 ^ 53) ∧
      ∃ sorted, sortFiles exampleListing = Except.ok sorted ∧ sorted.Perm exampleListing ∧
        sorted.Pairwise (fun a b => seqIndex a ≤ seqIndex b) :=
  ⟨by decide, by decide,
    (orderer_sorts_by_sequence_index exampleListing (by decide) (by decide)).1⟩

theorem chunkUrl_eq (dir file : List Char) :
    chunkUrl dir file = "http://localhost:5001/chunks/".toList ++ basename dir ++ '/' :: file := by
  have h : "http://localhost:".toList ++ toDecimal PORT ++ "/chunks/".toList
      = "http://localhost:5001/chunks/".toList := by decide
  unfold chunkUrl
  rw [h]

/-- The trace of the handler of `end` when the read and the sort succeed. -/
theorem onEnd_listed {w : World} {files sorted : List (List Char)} (videoPath dir : List Char)
    (hlist : w.listing = Except.ok files) (hsort : sortFiles files = Except.ok sorted) :
    onEnd w videoPath dir =
      [Effect.consoleLog "Video has been chunked successfully.", Effect.readdir dir,
       Effect.respond 200 (Payload.success "Video chunked successfully!"
         (sorted.map (chunkUrl dir))),
       Effect.unlink videoPath] ++ unlinkCallback w := by
  unfold onEnd readdirCallback
  simp [hlist, hsort]

/-- C2: for every number `n` of segments and every order in which the directory
read returns the `n` files `chunk-%03d.mp4` of indices `0..n-1` (a JavaScript
array, hence of fewer than `2^32` entries), the handler sends one response, the
success payload, whose `chunkUrls` has length `n` and has at position `i` the URL
`http://localhost:5001/chunks/<basename of outputDir>/<name of the file of index i>`. -/
theorem chunkUrls_follow_sequence_index (w : World) (req : Request) (file : UploadedFile)
    (n : Nat) (files : List (List Char))
    (hfile : req.file = some file) (hdur : durationRejected (chunkDurationOf req) = false)
    (hdir : w.outputDirExists = true ∨ w.mkdirError = none)
    (hseg : w.segmentation = SegmentOutcome.ended)
    (hlist : w.listing = Except.ok files)
    (hperm : files.Perm (chunkNames n))
    (hlen : files.length < 2 ^ 32) :
    ∃ urls, responses (uploadHandler w req)
        = [(200, Payload.success "Video chunked successfully!" urls)] ∧
      urls.length = n ∧
      ∀ i, i < n → urls[i]? = some ("http://localhost:5001/chunks/".toList
        ++ basename (outputDirOf w file) ++ '/' :: chunkName i) := by
  have hn : n ≤ 2 ^ 53 := by
    have h1 : files.length = n := by simpa [chunkNames] using hperm.length_eq
    omega
  have hsort := sortFiles_chunkNames hperm hn
  refine ⟨(chunkNames n).map (chunkUrl (outputDirOf w file)), ?_, by simp [chunkNames], ?_⟩
  · rw [uploadHandler_accepted hfile hdur hdir, responses_append,
      (setupEffects_quiet w _).1]
    unfold runSegmentation
    rw [hseg]
    simp only [onEnd_listed file.path (outputDirOf w file) hlist hsort]
    cases hu : w.unlinkError <;> simp [responses, unlinkCallback, hu]
  · intro i hi
    simp only [chunkNames, List.map_map, List.getElem?_map, List.getElem?_range hi,
      Option.map_some', Function.comp_apply, chunkUrl_eq]

/-- C2 at three segments listed in the order 2, 0, 1. -/
theorem chunkUrls_follow_sequence_index_witness :
    ∃ urls, responses (uploadHandler
          (sampleWorld SegmentOutcome.ended
            (Except.ok [chunkName 2, chunkName 0, chunkName 1]) none) sampleRequest)
        = [(200, Payload.success "Video chunked successfully!" urls)] ∧
      urls.length = 3 ∧
      ∀ i, i < 3 → urls[i]? = some ("http://localhost:5001/chunks/".toList
        ++ basename (outputDirOf (sampleWorld SegmentOutcome.ended
            (Except.ok [chunkName 2, chunkName 0, chunkName 1]) none) sampleFile)
        ++ '/' :: chunkName i) :=
  chunkUrls_follow_sequence_index
    (sampleWorld SegmentOutcome.ended (Except.ok [chunkName 2, chunkName 0, chunkName 1]) none)
    sampleRequest sampleFile 3 [chunkName 2, chunkName 0, chunkName 1]
    rfl (by decide) (Or.inr rfl) rfl rfl (by decide) (by decide)

/-! ## Names without a digit (C5) -/

theorem comparator_none_left {a : List Char} (b : List Char) (h : matchDigits a = none) :
    comparator a b = Except.error JSError.typeError := by
  unfold comparator
  simp [h]

theorem comparator_none_right (a : List Char) {b : List Char} (h : matchDigits b = none) :
    comparator a b = Except.error JSError.typeError := by
  unfold comparator
  cases matchDigits a <;> simp [h]

/-- Sorting two or more names of which one has no digit throws the `TypeError` of
the comparator. -/
theorem sortFiles_throws :
    ∀ files : List (List Char), 2 ≤ files.length → (∃ f ∈ files, matchDigits f = none) →
      sortFiles files = Except.error JSError.typeError := by
  intro files
  induction files with
  | nil => intro h; simp at h
  | cons a t ih =>
    intro hlen hbad
    cases t with
    | nil => simp at hlen
    | cons b l =>
      show arraySort comparator (a :: b :: l) = Except.error JSError.typeError
      unfold arraySort
      cases hs : arraySort comparator (b :: l) with
      | error e => cases e; rfl
      | ok s =>
        have hperm := arraySort_perm comparator (b :: l) s hs
        cases s with
        | nil => exact absurd hperm.length_eq (by simp)
        | cons x s1 =>
          have hx : matchDigits a = none ∨ matchDigits x = none := by
            obtain ⟨f, hf, hnone⟩ := hbad
            rcases List.mem_cons.mp hf with rfl | hft
            · exact Or.inl hnone
            · cases l with
              | nil =>
                have h1 : x :: s1 = [b] := List.perm_singleton.mp hperm
                have hfb : f = b := by simpa using hft
                have hxb : x = b := by simpa using (List.cons.inj h1).1
                rw [hxb, ← hfb]
                exact Or.inr hnone
              | cons c l1 =>
                have := ih (by simp) ⟨f, hft, hnone⟩
                rw [show sortFiles (b :: c :: l1) = arraySort comparator (b :: c :: l1) from rfl,
                  hs] at this
                exact absurd this (by simp)
          have hc : comparator a x = Except.error JSError.typeError := by
            rcases hx with h | h
            · exact comparator_none_left x h
            · exact comparator_none_right a h
          simp only [insertOrdered, hc]

/-- The one-entry case beside C5: for the listing `[README]`, of length 1 and
without any digit, `sort` never calls the comparator, so the missing digit run goes
unnoticed and the handler sends the success payload with the one URL. -/
theorem single_digitless_listing_succeeds :
    1 ≤ digitlessListing.length ∧
      (∃ f ∈ digitlessListing, ∀ c ∈ f, isDigit c = false) ∧
      responses (uploadHandler (sampleWorld SegmentOutcome.ended (Except.ok digitlessListing) none)
          sampleRequest)
        = [(200, Payload.success "Video chunked successfully!"
            ["http://localhost:5001/chunks/1700000000000-123456789_mp4/README".toList])] := by
  decide

/-- C5 (what the code does instead): for every job that reaches the listing and
whose directory read returns two or more names of which one has no decimal digit,
the comparator throws a `TypeError` that nothing catches. The trace stops at the
uncaught exception right after the read: no response is sent at all, neither the
500 listing error that the read-error branch sends nor a success payload, and
nothing is unlinked. -/
theorem listing_without_digit_throws (w : World) (req : Request) (file : UploadedFile)
    (files : List (List Char))
    (hfile : req.file = some file) (hdur : durationRejected (chunkDurationOf req) = false)
    (hdir : w.outputDirExists = true ∨ w.mkdirError = none)
    (hseg : w.segmentation = SegmentOutcome.ended)
    (hlist : w.listing = Except.ok files)
    (hlen : 2 ≤ files.length) (hbad : ∃ f ∈ files, ∀ c ∈ f, isDigit c = false) :
    sortFiles files = Except.error JSError.typeError ∧
      uploadHandler w req = setupEffects w (outputDirOf w file) ++
        [Effect.runFfmpeg file.path (chunkDurationOf req)
           (pathJoin (outputDirOf w file) "chunk-%03d.mp4".toList),
         Effect.consoleLog "Video has been chunked successfully.",
         Effect.readdir (outputDirOf w file),
         Effect.uncaughtException JSError.typeError] ∧
      responses (uploadHandler w req) = [] ∧
      unlinks (uploadHandler w req) = [] := by
  obtain ⟨f, hf, hnone⟩ := hbad
  have hthrow := sortFiles_throws files hlen ⟨f, hf, (matchDigits_eq_none_iff f).mpr hnone⟩
  have htrace : uploadHandler w req = setupEffects w (outputDirOf w file) ++
        [Effect.runFfmpeg file.path (chunkDurationOf req)
           (pathJoin (outputDirOf w file) "chunk-%03d.mp4".toList),
         Effect.consoleLog "Video has been chunked successfully.",
         Effect.readdir (outputDirOf w file),
         Effect.uncaughtException JSError.typeError] := by
    rw [uploadHandler_accepted hfile hdur hdir]
    unfold runSegmentation onEnd readdirCallback
    rw [hseg]
    simp [hlist, hthrow]
  have hq := setupEffects_quiet w (outputDirOf w file)
  refine ⟨hthrow, htrace, ?_, ?_⟩
  · rw [htrace, responses_append, hq.1]
    rfl
  · rw [htrace, unlinks_append, hq.2.1]
    rfl

/-- C5 at the listing `[chunk-000.mp4, README]`: the handler sends no response. -/
theorem listing_without_digit_throws_witness :
    2 ≤ [chunkName 0, "README".toList].length ∧
      (∃ f ∈ [chunkName 0, "README".toList], ∀ c ∈ f, isDigit c = false) ∧
      responses (uploadHandler
        (sampleWorld SegmentOutcome.ended (Except.ok [chunkName 0, "README".toList]) none)
        sampleRequest) = [] :=
  ⟨by decide, by decide,
    (listing_without_digit_throws
      (sampleWorld SegmentOutcome.ended (Except.ok [chunkName 0, "README".toList]) none)
      sampleRequest sampleFile [chunkName 0, "README".toList]
      rfl (by decide) (Or.inr rfl) rfl rfl (by decide) (by decide)).2.2.1⟩

/-! ## Rejection at validation (C4) -/

/-- C4: for every request the handler rejects at validation (no file, or a duration
the test of line 45 rejects) the whole trace of the handler is a single 400
response, so no directory is tested or created, no segmentation is started, no
directory is read and nothing is unlinked; with a file present the payload is
`Invalid chunk duration.`, and the durations `0`, `-5`, `abc` and a missing field
are all rejected. -/
theorem validation_rejection_is_single_response (w : World) (req : Request)
    (hrej : req.file = none ∨ durationRejected (chunkDurationOf req) = true) :
    (∃ body, uploadHandler w req = [Effect.respond 400 body]) ∧
      (∀ file, req.file = some file →
        uploadHandler w req = [Effect.respond 400 (Payload.error "Invalid chunk duration.")]) ∧
      (req.file = none →
        uploadHandler w req = [Effect.respond 400 (Payload.error "No video file uploaded.")]) ∧
      ∀ d ∈ [some "0".toList, some "-5".toList, some "abc".toList, none],
        durationRejected (parseInt10 (fieldText d)) = true := by
  refine ⟨?_, ?_, ?_, by decide⟩
  · cases hfile : req.file with
    | none =>
      exact ⟨Payload.error "No video file uploaded.", by simp [uploadHandler, hfile]⟩
    | some file =>
      have hd : durationRejected (chunkDurationOf req) = true := by
        rcases hrej with h | h
        · rw [hfile] at h
          exact absurd h (by simp)
        · exact h
      exact ⟨Payload.error "Invalid chunk duration.", by simp [uploadHandler, hfile, hd]⟩
  · intro file hfile
    have hd : durationRejected (chunkDurationOf req) = true := by
      rcases hrej with h | h
      · rw [hfile] at h
        exact absurd h (by simp)
      · exact h
    simp [uploadHandler, hfile, hd]
  · intro hfile
    simp [uploadHandler, hfile]

/-- C4 at a request with a file and the duration `-5`. -/
theorem validation_rejection_is_single_response_witness :
    uploadHandler (sampleWorld SegmentOutcome.ended (Except.ok []) none)
        { file := some sampleFile, chunkDuration := some "-5".toList }
      = [Effect.respond 400 (Payload.error "Invalid chunk duration.")] :=
  (validation_rejection_is_single_response
    (sampleWorld SegmentOutcome.ended (Except.ok []) none)
    { file := some sampleFile, chunkDuration := some "-5".toList }
    (Or.inr (by decide))).2.1 sampleFile rfl

/-! ## The events of the segmentation (C6 to C9) -/

/-- C6 as stated fails: the segmentation ends, the directory read fails, and the
handler unlinks nothing. -/
theorem cleanup_counterexample :
    (sampleWorld SegmentOutcome.ended (Except.error "EIO".toList) none).segmentation
        = SegmentOutcome.ended ∧
      unlinks (uploadHandler (sampleWorld SegmentOutcome.ended (Except.error "EIO".toList) none)
        sampleRequest) = [] := by
  decide

/-- C6 (amended): for every job in which the segmentation signals completion, the
handler attempts one unlink of `videoPath` when the directory is read and ordered,
and none when the directory read fails. -/
theorem cleanup_follows_listing (w : World) (req : Request) (file : UploadedFile)
    (hfile : req.file = some file) (hdur : durationRejected (chunkDurationOf req) = false)
    (hdir : w.outputDirExists = true ∨ w.mkdirError = none)
    (hseg : w.segmentation = SegmentOutcome.ended) :
    (∀ files sorted, w.listing = Except.ok files → sortFiles files = Except.ok sorted →
        unlinks (uploadHandler w req) = [file.path]) ∧
      (∀ err, w.listing = Except.error err → unlinks (uploadHandler w req) = []) := by
  rw [uploadHandler_accepted hfile hdur hdir, unlinks_append, (setupEffects_quiet w _).2.1]
  unfold runSegmentation
  rw [hseg]
  refine ⟨?_, ?_⟩
  · intro files sorted hlist hsort
    simp only [onEnd_listed file.path (outputDirOf w file) hlist hsort]
    cases hu : w.unlinkError <;> simp [unlinks, unlinkCallback, hu]
  · intro err hlist
    simp [onEnd, readdirCallback, hlist, unlinks]

/-- The amended C6 at a job whose directory holds three segments. -/
theorem cleanup_follows_listing_witness :
    unlinks (uploadHandler (sampleWorld SegmentOutcome.ended (Except.ok (chunkNames 3)) none)
      sampleRequest) = [sampleFile.path] :=
  (cleanup_follows_listing (sampleWorld SegmentOutcome.ended (Except.ok (chunkNames 3)) none)
    sampleRequest sampleFile rfl (by decide) (Or.inr rfl) rfl).1
    (chunkNames 3) (chunkNames 3) rfl (by decide)

/-- C7: for every accepted request whose segmentation signals failure, with any
message, the trace is the directory set-up, the start of ffmpeg, the log line and
the response 500 `Failed to chunk video.`: one response, no read of the output
directory, no unlink. -/
theorem segmentation_failure_response (w : World) (req : Request) (file : UploadedFile)
    (message : List Char)
    (hfile : req.file = some file) (hdur : durationRejected (chunkDurationOf req) = false)
    (hdir : w.outputDirExists = true ∨ w.mkdirError = none)
    (hseg : w.segmentation = SegmentOutcome.failed message) :
    uploadHandler w req = setupEffects w (outputDirOf w file) ++
        [Effect.runFfmpeg file.path (chunkDurationOf req)
           (pathJoin (outputDirOf w file) "chunk-%03d.mp4".toList),
         Effect.consoleError "Error during chunking:" message,
         Effect.respond 500 (Payload.error "Failed to chunk video.")] ∧
      responses (uploadHandler w req) = [(500, Payload.error "Failed to chunk video.")] ∧
      (∀ e ∈ uploadHandler w req, isReaddir e = false) ∧
      unlinks (uploadHandler w req) = [] := by
  have htrace : uploadHandler w req = setupEffects w (outputDirOf w file) ++
        [Effect.runFfmpeg file.path (chunkDurationOf req)
           (pathJoin (outputDirOf w file) "chunk-%03d.mp4".toList),
         Effect.consoleError "Error during chunking:" message,
         Effect.respond 500 (Payload.error "Failed to chunk video.")] := by
    rw [uploadHandler_accepted hfile hdur hdir]
    unfold runSegmentation onError
    rw [hseg]
  have hq := setupEffects_quiet w (outputDirOf w file)
  refine ⟨htrace, ?_, ?_, ?_⟩
  · rw [htrace, responses_append, hq.1]
    rfl
  · intro e he
    rw [htrace] at he
    rcases List.mem_append.mp he with h | h
    · exact hq.2.2 e h
    · simp only [List.mem_cons, List.mem_singleton, List.not_mem_nil, or_false] at h
      rcases h with rfl | rfl | rfl <;> rfl
  · rw [htrace, unlinks_append, hq.2.1]
    rfl

/-- C7 at a job whose ffmpeg process fails. -/
theorem segmentation_failure_response_witness :
    responses (uploadHandler
        (sampleWorld (SegmentOutcome.failed "ffmpeg exited with code 1".toList)
          (Except.ok (chunkNames 2)) none) sampleRequest)
      = [(500, Payload.error "Failed to chunk video.")] :=
  (segmentation_failure_response
    (sampleWorld (SegmentOutcome.failed "ffmpeg exited with code 1".toList)
      (Except.ok (chunkNames 2)) none)
    sampleRequest sampleFile "ffmpeg exited with code 1".toList rfl (by decide) (Or.inr rfl)
    rfl).2.1

/-- The trace of the handler of `end` when the directory read fails. -/
theorem onEnd_unreadable {w : World} {err : SysError} (videoPath dir : List Char)
    (hlist : w.listing = Except.error err) :
    onEnd w videoPath dir =
      [Effect.consoleLog "Video has been chunked successfully.", Effect.readdir dir,
       Effect.consoleError "Could not list the directory." err,
       Effect.respond 500 (Payload.error "Failed to list video chunks.")] := by
  unfold onEnd readdirCallback
  simp [hlist]

/-- C8: for every job whose segmentation ended and whose directory read fails, the
one response is 500 `Failed to list video chunks.`, a payload without `chunkUrls`;
it is the same for any two such jobs, whatever the two error values, requests
and other answers of the world, so nothing of the error reaches the client. -/
theorem listing_failure_response (w1 w2 : World) (req1 req2 : Request)
    (file1 file2 : UploadedFile) (err1 err2 : SysError)
    (hfile1 : req1.file = some file1) (hfile2 : req2.file = some file2)
    (hdur1 : durationRejected (chunkDurationOf req1) = false)
    (hdur2 : durationRejected (chunkDurationOf req2) = false)
    (hdir1 : w1.outputDirExists = true ∨ w1.mkdirError = none)
    (hdir2 : w2.outputDirExists = true ∨ w2.mkdirError = none)
    (hseg1 : w1.segmentation = SegmentOutcome.ended)
    (hseg2 : w2.segmentation = SegmentOutcome.ended)
    (hlist1 : w1.listing = Except.error err1) (hlist2 : w2.listing = Except.error err2) :
    responses (uploadHandler w1 req1) = [(500, Payload.error "Failed to list video chunks.")] ∧
      responses (uploadHandler w2 req2) = responses (uploadHandler w1 req1) := by
  have key : ∀ (w : World) (req : Request) (file : UploadedFile) (err : SysError),
      req.file = some file → durationRejected (chunkDurationOf req) = false →
      (w.outputDirExists = true ∨ w.mkdirError = none) →
      w.segmentation = SegmentOutcome.ended → w.listing = Except.error err →
      responses (uploadHandler w req)
        = [(500, Payload.error "Failed to list video chunks.")] := by
    intro w req file err hfile hdur hdir hseg hlist
    rw [uploadHandler_accepted hfile hdur hdir, responses_append, (setupEffects_quiet w _).1]
    unfold runSegmentation
    rw [hseg]
    simp only [onEnd_unreadable file.path (outputDirOf w file) hlist]
    rfl
  rw [key w1 req1 file1 err1 hfile1 hdur1 hdir1 hseg1 hlist1,
    key w2 req2 file2 err2 hfile2 hdur2 hdir2 hseg2 hlist2]
  exact ⟨rfl, rfl⟩

/-- C8 at two jobs with different requests and different read errors. -/
theorem listing_failure_response_witness :
    responses (uploadHandler
        (sampleWorld SegmentOutcome.ended (Except.error "EACCES: /srv/chunks".toList) none)
        sampleRequest)
      = [(500, Payload.error "Failed to list video chunks.")] ∧
    responses (uploadHandler
        (sampleWorld SegmentOutcome.ended (Except.error "EMFILE".toList) (some "EPERM".toList))
        otherRequest)
      = responses (uploadHandler
        (sampleWorld SegmentOutcome.ended (Except.error "EACCES: /srv/chunks".toList) none)
        sampleRequest) :=
  listing_failure_response
    (sampleWorld SegmentOutcome.ended (Except.error "EACCES: /srv/chunks".toList) none)
    (sampleWorld SegmentOutcome.ended (Except.error "EMFILE".toList) (some "EPERM".toList))
    sampleRequest otherRequest sampleFile
    { path := "uploads/1700000000001-42.mov".toList, filename := "1700000000001-42.mov".toList }
    "EACCES: /srv/chunks".toList "EMFILE".toList
    rfl rfl (by decide) (by decide) (Or.inr rfl) (Or.inr rfl) rfl rfl rfl rfl

/-- C9: for every job in which the segmentation ends and the directory is read and
ordered, the trace is a prefix without response, read or unlink, then the read of
the output directory, the 200 success response, the unlink of `videoPath`, and
what the unlink callback logs; one response is sent, one unlink is attempted, and
the responses are the same whatever the outcome of the unlink. -/
theorem success_effects_in_order (w : World) (req : Request) (file : UploadedFile)
    (files sorted : List (List Char))
    (hfile : req.file = some file) (hdur : durationRejected (chunkDurationOf req) = false)
    (hdir : w.outputDirExists = true ∨ w.mkdirError = none)
    (hseg : w.segmentation = SegmentOutcome.ended)
    (hlist : w.listing = Except.ok files) (hsort : sortFiles files = Except.ok sorted) :
    ∃ before after body,
      uploadHandler w req = before ++
        [Effect.readdir (outputDirOf w file), Effect.respond 200 body, Effect.unlink file.path]
        ++ after ∧
      (responses before = [] ∧ unlinks before = [] ∧ ∀ e ∈ before, isReaddir e = false) ∧
      (responses after = [] ∧ unlinks after = [] ∧ ∀ e ∈ after, isReaddir e = false) ∧
      body = Payload.success "Video chunked successfully!"
        (sorted.map (chunkUrl (outputDirOf w file))) ∧
      responses (uploadHandler w req) = [(200, body)] ∧
      unlinks (uploadHandler w req) = [file.path] ∧
      ∀ outcome : Option SysError,
        responses (uploadHandler { w with unlinkError := outcome } req) = [(200, body)] := by
  have hq := setupEffects_quiet w (outputDirOf w file)
  have hu := unlinkCallback_quiet w
  have htrace : ∀ v : World, v.outputDirExists = w.outputDirExists → v.mkdirError = w.mkdirError →
      v.chunksDir = w.chunksDir → v.segmentation = w.segmentation → v.listing = w.listing →
      uploadHandler v req = (setupEffects w (outputDirOf w file) ++
        [Effect.runFfmpeg file.path (chunkDurationOf req)
           (pathJoin (outputDirOf w file) "chunk-%03d.mp4".toList),
         Effect.consoleLog "Video has been chunked successfully."]) ++
        [Effect.readdir (outputDirOf w file),
         Effect.respond 200 (Payload.success "Video chunked successfully!"
           (sorted.map (chunkUrl (outputDirOf w file)))),
         Effect.unlink file.path] ++ unlinkCallback v := by
    intro v h1 h2 h3 h4 h5
    have hdirv : v.outputDirExists = true ∨ v.mkdirError = none := by
      rw [h1, h2]
      exact hdir
    have hout : outputDirOf v file = outputDirOf w file := by
      simp [outputDirOf, h3]
    have hset : setupEffects v (outputDirOf w file) = setupEffects w (outputDirOf w file) := by
      simp [setupEffects, h1]
    rw [uploadHandler_accepted hfile hdur hdirv, hout, hset]
    unfold runSegmentation
    rw [h4, hseg]
    simp only [onEnd_listed file.path (outputDirOf w file) (h5.trans hlist) hsort]
    simp
  have hbefore : responses (setupEffects w (outputDirOf w file) ++
        [Effect.runFfmpeg file.path (chunkDurationOf req)
           (pathJoin (outputDirOf w file) "chunk-%03d.mp4".toList),
         Effect.consoleLog "Video has been chunked successfully."]) = [] ∧
      unlinks (setupEffects w (outputDirOf w file) ++
        [Effect.runFfmpeg file.path (chunkDurationOf req)
           (pathJoin (outputDirOf w file) "chunk-%03d.mp4".toList),
         Effect.consoleLog "Video has been chunked successfully."]) = [] ∧
      ∀ e ∈ (setupEffects w (outputDirOf w file) ++
        [Effect.runFfmpeg file.path (chunkDurationOf req)
           (pathJoin (outputDirOf w file) "chunk-%03d.mp4".toList),
         Effect.consoleLog "Video has been chunked successfully."]), isReaddir e = false := by
    refine ⟨?_, ?_, ?_⟩
    · rw [responses_append, hq.1]
      rfl
    · rw [unlinks_append, hq.2.1]
      rfl
    · intro e he
      rcases List.mem_append.mp he with h | h
      · exact hq.2.2 e h
      · simp only [List.mem_cons, List.mem_singleton, List.not_mem_nil, or_false] at h
        rcases h with rfl | rfl <;> rfl
  have hresp : ∀ v : World, v.outputDirExists = w.outputDirExists →
      v.mkdirError = w.mkdirError → v.chunksDir = w.chunksDir →
      v.segmentation = w.segmentation → v.listing = w.listing →
      responses (uploadHandler v req) = [(200, Payload.success "Video chunked successfully!"
        (sorted.map (chunkUrl (outputDirOf w file))))] := by
    intro v h1 h2 h3 h4 h5
    rw [htrace v h1 h2 h3 h4 h5, responses_append, responses_append, hbefore.1,
      (unlinkCallback_quiet v).1]
    rfl
  refine ⟨_, unlinkCallback w, _, htrace w rfl rfl rfl rfl rfl, hbefore, hu, rfl,
    hresp w rfl rfl rfl rfl rfl, ?_, ?_⟩
  · rw [htrace w rfl rfl rfl rfl rfl, unlinks_append, unlinks_append, hbefore.2.1, hu.2.1]
    rfl
  · intro outcome
    exact hresp { w with unlinkError := outcome } rfl rfl rfl rfl rfl

/-- C9 at a job with three segments whose source file cannot be deleted. -/
theorem success_effects_in_order_witness :
    ∃ before after body,
      uploadHandler (sampleWorld SegmentOutcome.ended (Except.ok (chunkNames 3))
          (some "EPERM".toList)) sampleRequest = before ++
        [Effect.readdir (outputDirOf (sampleWorld SegmentOutcome.ended
            (Except.ok (chunkNames 3)) (some "EPERM".toList)) sampleFile),
         Effect.respond 200 body, Effect.unlink sampleFile.path] ++ after ∧
      responses (uploadHandler (sampleWorld SegmentOutcome.ended (Except.ok (chunkNames 3))
          (some "EPERM".toList)) sampleRequest) = [(200, body)] := by
  obtain ⟨before, after, body, h1, _, _, _, h2, _⟩ :=
    success_effects_in_order
      (sampleWorld SegmentOutcome.ended (Except.ok (chunkNames 3)) (some "EPERM".toList))
      sampleRequest sampleFile (chunkNames 3) (chunkNames 3)
      rfl (by decide) (Or.inr rfl) rfl rfl (by decide)
  exact ⟨before, after, body, h1, h2⟩

/-! ## The output directory (C10) -/

theorem replaceFirst_absent (p r : Char) :
    ∀ l : List Char, p ∉ l → replaceFirst p r l = l
  | [], _ => rfl
  | c :: cs, h => by
    have hc : c ≠ p := fun e => h (e ▸ List.mem_cons_self c cs)
    have hcs : p ∉ cs := fun e => h (List.mem_cons_of_mem c e)
    simp [replaceFirst, hc, replaceFirst_absent p r cs hcs]

theorem replaceFirst_append (p r : Char) (ys : List Char) :
    ∀ xs : List Char, p ∉ xs → replaceFirst p r (xs ++ ys) = xs ++ replaceFirst p r ys
  | [], _ => rfl
  | c :: cs, h => by
    have hc : c ≠ p := fun e => h (e ▸ List.mem_cons_self c cs)
    have hcs : p ∉ cs := fun e => h (List.mem_cons_of_mem c e)
    simp [replaceFirst, hc, replaceFirst_append p r ys cs hcs]

/-- The part `<digits>-<digits>` of a generated name contains neither `.` nor `_`. -/
theorem stem_clean {d1 d2 : List Char} (h1 : ∀ c ∈ d1, isDigit c = true)
    (h2 : ∀ c ∈ d2, isDigit c = true) :
    '.' ∉ d1 ++ '-' :: d2 ∧ '_' ∉ d1 ++ '-' :: d2 := by
  have hdot : isDigit '.' = false := by decide
  have hund : isDigit '_' = false := by decide
  constructor
  · intro h
    rcases List.mem_append.mp h with h | h
    · rw [h1 _ h] at hdot
      exact absurd hdot (by simp)
    · rcases List.mem_cons.mp h with h | h
      · exact absurd h (by decide)
      · rw [h2 _ h] at hdot
        exact absurd hdot (by simp)
  · intro h
    rcases List.mem_append.mp h with h | h
    · rw [h1 _ h] at hund
      exact absurd hund (by simp)
    · rcases List.mem_cons.mp h with h | h
      · exact absurd h (by decide)
      · rw [h2 _ h] at hund
        exact absurd hund (by simp)

/-- The directory name of a generated file name, and the way back from it. -/
theorem outputDirName_generated {d1 d2 ext : List Char} (h1 : ∀ c ∈ d1, isDigit c = true)
    (h2 : ∀ c ∈ d2, isDigit c = true) (hext : IsExtension ext) :
    (ext = [] → outputDirName (d1 ++ '-' :: (d2 ++ ext)) = d1 ++ '-' :: d2) ∧
      (∀ rest, ext = '.' :: rest →
        outputDirName (d1 ++ '-' :: (d2 ++ ext)) = d1 ++ '-' :: (d2 ++ '_' :: rest)) ∧
      '.' ∉ outputDirName (d1 ++ '-' :: (d2 ++ ext)) ∧
      replaceFirst '_' '.' (outputDirName (d1 ++ '-' :: (d2 ++ ext)))
        = d1 ++ '-' :: (d2 ++ ext) := by
  have hclean := stem_clean h1 h2
  have hsplit : d1 ++ '-' :: (d2 ++ ext) = (d1 ++ '-' :: d2) ++ ext := by simp
  have hout : outputDirName (d1 ++ '-' :: (d2 ++ ext))
      = (d1 ++ '-' :: d2) ++ replaceFirst '.' '_' ext := by
    rw [hsplit]
    exact replaceFirst_append '.' '_' ext _ hclean.1
  rcases hext with rfl | ⟨rest, rfl, hrest⟩
  · have hnil : replaceFirst '.' '_' [] = [] := rfl
    rw [hout, hnil, List.append_nil]
    refine ⟨fun _ => rfl, fun rest h => absurd h (by simp), hclean.1, ?_⟩
    rw [replaceFirst_absent '_' '.' _ hclean.2, List.append_nil]
  · have hrep : replaceFirst '.' '_' ('.' :: rest) = '_' :: rest := by simp [replaceFirst]
    rw [hout, hrep]
    refine ⟨fun h => absurd h (by simp), ?_, ?_, ?_⟩
    · intro rest1 h
      have : rest = rest1 := by simpa using h
      subst this
      simp
    · intro h
      rcases List.mem_append.mp h with h | h
      · exact hclean.1 h
      · rcases List.mem_cons.mp h with h | h
        · exact absurd h (by decide)
        · exact hrest h
    · rw [replaceFirst_append '_' '.' _ _ hclean.2]
      simp [replaceFirst]

/-- C10: for a stored file name `<digits>-<digits><ext>`, with `ext` empty or one `.`
followed by characters other than `.` (the names multer generates are of this
form), the output directory name is the file name with the `.` of the extension
replaced by `_`, it contains no `.`, and two such file names with the same
directory name, or the same output directory, are equal. -/
theorem outputDirName_injective_on_generated (d1 d2 ext : List Char)
    (h1 : ∀ c ∈ d1, isDigit c = true) (h2 : ∀ c ∈ d2, isDigit c = true)
    (hext : IsExtension ext) :
    (ext = [] → outputDirName (d1 ++ '-' :: (d2 ++ ext)) = d1 ++ '-' :: d2) ∧
      (∀ rest, ext = '.' :: rest →
        outputDirName (d1 ++ '-' :: (d2 ++ ext)) = d1 ++ '-' :: (d2 ++ '_' :: rest)) ∧
      '.' ∉ outputDirName (d1 ++ '-' :: (d2 ++ ext)) ∧
      (∀ e1 e2 ext1 : List Char, (∀ c ∈ e1, isDigit c = true) → (∀ c ∈ e2, isDigit c = true) →
        IsExtension ext1 →
        outputDirName (d1 ++ '-' :: (d2 ++ ext)) = outputDirName (e1 ++ '-' :: (e2 ++ ext1)) →
        d1 ++ '-' :: (d2 ++ ext) = e1 ++ '-' :: (e2 ++ ext1)) ∧
      (∀ (w : World) (p p1 e1 e2 ext1 : List Char), (∀ c ∈ e1, isDigit c = true) →
        (∀ c ∈ e2, isDigit c = true) → IsExtension ext1 →
        outputDirOf w { path := p, filename := d1 ++ '-' :: (d2 ++ ext) }
          = outputDirOf w { path := p1, filename := e1 ++ '-' :: (e2 ++ ext1) } →
        d1 ++ '-' :: (d2 ++ ext) = e1 ++ '-' :: (e2 ++ ext1)) ∧
      ∀ now rnd : Nat, ∃ t r, generatedFilename now rnd ext = t ++ '-' :: (r ++ ext) ∧
        (∀ c ∈ t, isDigit c = true) ∧ (∀ c ∈ r, isDigit c = true) := by
  obtain ⟨ha, hb, hc, hd⟩ := outputDirName_generated h1 h2 hext
  refine ⟨ha, hb, hc, ?_, ?_, ?_⟩
  · intro e1 e2 ext1 g1 g2 gext heq
    have hback := (outputDirName_generated g1 g2 gext).2.2.2
    rw [← hd, heq, hback]
  · intro w p p1 e1 e2 ext1 g1 g2 gext heq
    have hback := (outputDirName_generated g1 g2 gext).2.2.2
    have hname : outputDirName (d1 ++ '-' :: (d2 ++ ext))
        = outputDirName (e1 ++ '-' :: (e2 ++ ext1)) := by
      simpa [outputDirOf, pathJoin] using heq
    rw [← hd, hname, hback]
  · intro now rnd
    exact ⟨toDecimal now, toDecimal rnd, rfl, (toDecimal_spec now).2.1, (toDecimal_spec rnd).2.1⟩

/-- C10 at the stored name `1700000000000-123456789.mp4`. -/
theorem outputDirName_injective_on_generated_witness :
    outputDirName (generatedFilename 1700000000000 123456789 ".mp4".toList)
        = "1700000000000-123456789_mp4".toList ∧
      '.' ∉ outputDirName ("1700000000000".toList ++ '-' :: ("123456789".toList ++ ".mp4".toList)) :=
  ⟨by decide,
    (outputDirName_injective_on_generated "1700000000000".toList "123456789".toList ".mp4".toList
      (by decide) (by decide) (Or.inr ⟨"mp4".toList, rfl, by decide⟩)).2.2.1⟩

/-! ## The duration field (C3) -/

theorem excessBits_le : ∀ (fuel n : Nat), 1 ≤ n → 2 ^ excessBits fuel n ≤ n
  | 0, n, h => by simpa [excessBits] using h
  | fuel + 1, n, h => by
    unfold excessBits
    by_cases hn : n < 2 ^ 53
    · rw [if_pos hn]
      simpa using h
    · rw [if_neg hn]
      have h2 : 1 ≤ n / 2 := by omega
      have ih := excessBits_le fuel (n / 2) h2
      rw [Nat.pow_succ]
      omega

/-- Rounding to binary64 never turns a positive integer into zero. -/
theorem roundToDouble_ne_zero {n m : Nat} (hn : n ≠ 0) (h : roundToDouble n = some m) :
    m ≠ 0 := by
  by_cases hs : n < 2 ^ 53
  · rw [roundToDouble_small hs] at h
    have : n = m := by simpa using h
    omega
  · have hle := excessBits_le n n (by omega)
    have hpos : 0 < 2 ^ excessBits n n := Nat.pow_pos (by decide)
    have hq : 1 ≤ n / 2 ^ excessBits n n := (Nat.one_le_div_iff hpos).mpr hle
    have key : ∀ q1 : Nat, 1 ≤ q1 →
        (if q1 * 2 ^ excessBits n n < 2 ^ 1024 then some (q1 * 2 ^ excessBits n n) else none)
          = some m → m ≠ 0 := by
      intro q1 hq1 hm
      by_cases hlim : q1 * 2 ^ excessBits n n < 2 ^ 1024
      · rw [if_pos hlim] at hm
        have h1 : q1 * 2 ^ excessBits n n = m := by simpa using hm
        rw [← h1]
        exact Nat.ne_of_gt (Nat.mul_pos hq1 hpos)
      · rw [if_neg hlim] at hm
        exact absurd hm (by simp)
    unfold roundToDouble at h
    rw [if_neg hs] at h
    refine key _ ?_ h
    split <;> omega

theorem accepted_ofInt_pos {n : Nat} (hn : n ≠ 0) :
    durationRejected (JSNum.ofInt (n : Int)) = false := by
  unfold JSNum.ofInt
  cases hr : roundToDouble (n : Int).natAbs with
  | none => simp [durationRejected, JSNum.truthy, JSNum.leZero]
  | some m =>
    have hm : m ≠ 0 := roundToDouble_ne_zero (by simpa using hn) hr
    have hneg : ¬ ((n : Int) < 0) := by omega
    simp only [hneg, if_false, durationRejected, JSNum.truthy, JSNum.leZero]
    simp only [Bool.or_eq_false_iff, Bool.not_eq_false', decide_eq_true_eq,
      decide_eq_false_iff_not]
    omega

theorem rejected_ofInt_neg (n : Nat) : durationRejected (JSNum.ofInt (-(n : Int))) = true := by
  by_cases h0 : n = 0
  · subst h0
    decide
  · have hneg : -(n : Int) < 0 := by omega
    unfold JSNum.ofInt
    cases hr : roundToDouble (-(n : Int)).natAbs with
    | none => simp [durationRejected, JSNum.truthy, JSNum.leZero, hneg]
    | some m =>
      simp only [hneg, if_true, durationRejected, JSNum.truthy, JSNum.leZero]
      simp only [Bool.or_eq_true, Bool.not_eq_true', decide_eq_false_iff_not, decide_eq_true_eq]
      right
      omega

theorem takeWhile_digits_run {ds rest : List Char} (hds : ∀ c ∈ ds, isDigit c = true)
    (hrest : ∀ c, rest.head? = some c → isDigit c = false) :
    (ds ++ rest).takeWhile isDigit = ds := by
  rw [List.takeWhile_append_of_pos hds]
  cases rest with
  | nil => simp
  | cons r rs =>
    have hr : ¬ (isDigit r = true) := by simp [hrest r rfl]
    rw [List.takeWhile_cons_of_neg hr, List.append_nil]

/-- On an input with a leading non-negative integer `parseInt` returns its value. -/
theorem parseInt10_leading {s ws sign ds rest : List Char}
    (h : LeadingInteger s ws sign ds rest) : parseInt10 s = JSNum.ofInt (digitsValue ds) := by
  obtain ⟨hs, hws, hsign, hne, hds, hrest⟩ := h
  cases ds with
  | nil => exact absurd rfl hne
  | cons d ds1 =>
    have hd : isDigit d = true := hds d (List.mem_cons_self d ds1)
    have hdsp : ¬ (isStrWhiteSpace d = true) := by simp [not_space_of_isDigit hd]
    have hdm : d ≠ '-' := by
      rintro rfl
      exact absurd hd (by decide)
    have hdp : d ≠ '+' := by
      rintro rfl
      exact absurd hd (by decide)
    have htake := takeWhile_digits_run hds hrest
    rcases hsign with rfl | rfl
    · have hdrop : s.dropWhile isStrWhiteSpace = (d :: ds1) ++ rest := by
        rw [hs, List.append_nil, List.append_assoc, List.dropWhile_append_of_pos hws]
        exact List.dropWhile_cons_of_neg hdsp
      unfold parseInt10
      simp only [hdrop, List.cons_append, List.head?_cons, Option.some.injEq, hdm, hdp,
        or_self, if_false, decide_False]
      rw [← List.cons_append, htake]
      simp
    · have hplus : ¬ (isStrWhiteSpace '+' = true) := by decide
      have hdrop : s.dropWhile isStrWhiteSpace = '+' :: ((d :: ds1) ++ rest) := by
        rw [hs, List.append_assoc, List.append_assoc, List.dropWhile_append_of_pos hws]
        exact List.dropWhile_cons_of_neg hplus
      have hpm : ('+' : Char) ≠ '-' := by decide
      unfold parseInt10
      simp only [hdrop, List.head?_cons, Option.some.injEq, hpm, or_true, if_true,
        List.tail_cons, decide_False, htake]
      simp

/-- What `parseInt` can return: NaN, the number of a non-positive integer, or the
number of the leading integer of its input. -/
theorem parseInt10_cases (s : List Char) :
    parseInt10 s = JSNum.nan ∨ (∃ n : Nat, parseInt10 s = JSNum.ofInt (-(n : Int))) ∨
      ∃ ws sign ds rest, LeadingInteger s ws sign ds rest := by
  have hsplit : s = s.takeWhile isStrWhiteSpace ++ s.dropWhile isStrWhiteSpace :=
    (List.takeWhile_append_dropWhile isStrWhiteSpace s).symm
  have hws : ∀ c ∈ s.takeWhile isStrWhiteSpace, isStrWhiteSpace c = true :=
    all_takeWhile isStrWhiteSpace s
  have hrun : ∀ u : List Char, u.takeWhile isDigit ≠ [] →
      u = u.takeWhile isDigit ++ u.dropWhile isDigit ∧
      (∀ c ∈ u.takeWhile isDigit, isDigit c = true) ∧
      ∀ c, (u.dropWhile isDigit).head? = some c → isDigit c = false := by
    intro u _
    refine ⟨(List.takeWhile_append_dropWhile isDigit u).symm, all_takeWhile isDigit u, ?_⟩
    intro c hc
    have := List.head?_dropWhile_not isDigit u
    rw [hc] at this
    exact this
  cases ht : s.dropWhile isStrWhiteSpace with
  | nil =>
    left
    unfold parseInt10
    simp [ht]
  | cons c t1 =>
    by_cases hm : c = '-'
    · subst hm
      by_cases hz : t1.takeWhile isDigit = []
      · left
        unfold parseInt10
        simp [ht, hz]
      · right; left
        refine ⟨digitsValue (t1.takeWhile isDigit), ?_⟩
        unfold parseInt10
        simp [ht, hz]
    · by_cases hp : c = '+'
      · subst hp
        by_cases hz : t1.takeWhile isDigit = []
        · left
          unfold parseInt10
          simp [ht, hz]
        · right; right
          obtain ⟨h1, h2, h3⟩ := hrun t1 hz
          refine ⟨s.takeWhile isStrWhiteSpace, ['+'], t1.takeWhile isDigit,
            t1.dropWhile isDigit, ?_, hws, Or.inr rfl, hz, h2, h3⟩
          rw [List.append_assoc, List.append_assoc, ← h1, List.singleton_append, ← ht]
          exact hsplit
      · by_cases hz : (c :: t1).takeWhile isDigit = []
        · left
          unfold parseInt10
          simp only [ht, List.head?_cons, Option.some.injEq, hm, hp, or_self, if_false, hz,
            if_true]
        · right; right
          obtain ⟨h1, h2, h3⟩ := hrun (c :: t1) hz
          refine ⟨s.takeWhile isStrWhiteSpace, [], (c :: t1).takeWhile isDigit,
            (c :: t1).dropWhile isDigit, ?_, hws, Or.inl rfl, hz, h2, h3⟩
          rw [List.append_nil, List.append_assoc, ← h1, ← ht]
          exact hsplit

/-- C3 as stated fails: the field `10abc` is not, as a whole, a decimal integer, yet
the test of line 45 accepts it, validation yields `10`, and the handler does not
answer 400 but goes on to set up the output directory. -/
theorem duration_validation_counterexample :
    ¬ (∀ c ∈ "10abc".toList, isDigit c = true) ∧
      durationRejected (chunkDurationOf trailingGarbageRequest) = false ∧
      chunkDurationOf trailingGarbageRequest = JSNum.fin 10 ∧
      (uploadHandler (sampleWorld SegmentOutcome.pending (Except.ok []) none)
          trailingGarbageRequest).head?
        = some (Effect.existsSync "/srv/chunks/1700000000000-123456789_mp4".toList) := by
  decide

/-- C3 (amended): for every request that carries a file, validation of the field
`chunkDuration` succeeds (the handler goes on to the output directory) exactly when
the field is present and, after optional leading white space and an optional `+`,
starts with a run of decimal digits whose integer value is not zero, whatever
follows that run; the value validation yields is the integer value of that run
(exactly when it is at most `2^53`, its binary64 rounding beyond); for every other
value the handler answers 400 `Invalid chunk duration.`. -/
theorem duration_validation_reads_leading_integer (w : World) (req : Request)
    (file : UploadedFile) (hfile : req.file = some file) :
    (durationRejected (chunkDurationOf req) = false ↔
        ∃ s ws sign ds rest, req.chunkDuration = some s ∧ LeadingInteger s ws sign ds rest ∧
          digitsValue ds ≠ 0) ∧
      (∀ s ws sign ds rest, req.chunkDuration = some s → LeadingInteger s ws sign ds rest →
        chunkDurationOf req = JSNum.ofInt (digitsValue ds) ∧
          (digitsValue ds ≤ 2 ^ 53 → chunkDurationOf req = JSNum.fin (digitsValue ds))) ∧
      (durationRejected (chunkDurationOf req) = true →
        uploadHandler w req = [Effect.respond 400 (Payload.error "Invalid chunk duration.")]) ∧
      (durationRejected (chunkDurationOf req) = false →
        (uploadHandler w req).head? = some (Effect.existsSync (outputDirOf w file))) := by
  refine ⟨⟨?_, ?_⟩, ?_, ?_, ?_⟩
  · intro hacc
    cases hd : req.chunkDuration with
    | none =>
      have hrej : durationRejected (chunkDurationOf req) = true := by
        unfold chunkDurationOf
        rw [hd]
        decide
      rw [hrej] at hacc
      exact absurd hacc (by simp)
    | some s =>
      have hval : chunkDurationOf req = parseInt10 s := by
        unfold chunkDurationOf
        rw [hd]
        rfl
      rw [hval] at hacc
      rcases parseInt10_cases s with h | ⟨n, h⟩ | ⟨ws, sign, ds, rest, h⟩
      · rw [h] at hacc
        exact absurd hacc (by decide)
      · rw [h, rejected_ofInt_neg n] at hacc
        exact absurd hacc (by simp)
      · refine ⟨s, ws, sign, ds, rest, rfl, h, ?_⟩
        intro hzero
        rw [parseInt10_leading h, hzero] at hacc
        exact absurd hacc (by decide)
  · rintro ⟨s, ws, sign, ds, rest, hd, h, hne⟩
    unfold chunkDurationOf
    rw [hd]
    show durationRejected (parseInt10 s) = false
    rw [parseInt10_leading h]
    exact accepted_ofInt_pos hne
  · intro s ws sign ds rest hd h
    have hval : chunkDurationOf req = JSNum.ofInt (digitsValue ds) := by
      unfold chunkDurationOf
      rw [hd]
      exact parseInt10_leading h
    refine ⟨hval, ?_⟩
    intro hsmall
    rw [hval]
    exact ofInt_exact (by simpa using hsmall)
  · intro hrej
    simp [uploadHandler, hfile, hrej]
  · intro hacc
    unfold uploadHandler
    simp only [hfile, hacc, Bool.false_eq_true, if_false]
    cases w.outputDirExists with
    | true => simp
    | false =>
      cases w.mkdirError <;> simp

/-- The amended C3 at the field `  +30 seconds`. -/
theorem duration_validation_reads_leading_integer_witness :
    durationRejected (chunkDurationOf
        { file := some sampleFile, chunkDuration := some "  +30 seconds".toList }) = false ∧
      chunkDurationOf { file := some sampleFile, chunkDuration := some "  +30 seconds".toList }
        = JSNum.fin 30 :=
  ⟨by decide,
    ((duration_validation_reads_leading_integer
        (sampleWorld SegmentOutcome.pending (Except.ok []) none)
        { file := some sampleFile, chunkDuration := some "  +30 seconds".toList }
        sampleFile rfl).2.1
      "  +30 seconds".toList "  ".toList "+".toList "30".toList " seconds".toList rfl
      ⟨by decide, by decide, Or.inr rfl, by decide, by decide, by decide⟩).2 (by decide)⟩

end VideoConfirm
